import Mathlib

/-!
Verification development for the 3d-mesh-painter repository.

The repository's painting engine (src/utils/meshUtils.ts, reproduced in
src/types/index.ts, and the two MeshPainter component variants) is shallowly
embedded here.  Scalars that are floating-point numbers in the source are
modelled as rationals (`ℚ`); the Euclidean distance `Vector3.distanceTo`,
which involves a square root, is modelled exactly by `Real.sqrt` on the
rational squared distance, and every comparison `distance ≤ r` the code
performs is embedded by the decidable, sqrt-free equivalent
`0 ≤ r ∧ d2 ≤ r * r` (the equivalence is proved in `distLe_iff`).
-/

namespace MeshPaint

/-- The `Vector3 {x, y, z}` interface of the source, with rational
coordinates. -/
structure Vec3 where
  x : ℚ
  y : ℚ
  z : ℚ
deriving DecidableEq, Repr

/-- Squared Euclidean distance between two points.  `Vector3.distanceTo`
in the source is `Real.sqrt` of this quantity. -/
def sqDist (a b : Vec3) : ℚ :=
  (a.x - b.x) * (a.x - b.x) + (a.y - b.y) * (a.y - b.y) + (a.z - b.z) * (a.z - b.z)

/-- Decidable embedding of the comparison `sqrt d2 ≤ r` performed by the
source on floating-point numbers: equivalent to `0 ≤ r ∧ d2 ≤ r * r`. -/
def distLe (d2 r : ℚ) : Bool :=
  decide (0 ≤ r ∧ d2 ≤ r * r)

/-- The exact Euclidean distance (`Vector3.distanceTo` in the source). -/
noncomputable def edist (a b : Vec3) : ℝ :=
  Real.sqrt ((sqDist a b : ℚ) : ℝ)

/-- The `falloff` enumeration of `BrushSettings` in the source:
`'linear' | 'smooth' | 'constant'`. -/
inductive Falloff where
  | linear
  | smooth
  | constant
deriving DecidableEq, Repr

/-- The `BrushSettings` interface of the source. -/
structure BrushSettings where
  size : ℚ
  strength : ℚ
  falloff : Falloff
deriving DecidableEq, Repr

/-- `calculateBrushStrength` from src/utils/meshUtils.ts, transcribed over
`ℚ`:

    if (distance > radius) return 0;
    const normalizedDistance = distance / radius;
    switch (falloff) {
      case 'constant': return baseStrength;
      case 'linear':   return baseStrength * (1 - normalizedDistance);
      case 'smooth':   return baseStrength * (1 - normalizedDistance * normalizedDistance);
      default:         return baseStrength; }

(`normalizedDistance` is inlined.  The `default` arm is unreachable: the
enumeration has exactly the three listed values.  For `radius = 0`,
JavaScript would produce `NaN` for `0/0` in the `linear`/`smooth` arms;
`ℚ` takes `0/0 = 0`.  Every claim about this function assumes
`radius > 0`, where the two semantics agree.) -/
def calculateBrushStrength (distance radius : ℚ) (falloff : Falloff)
    (baseStrength : ℚ) : ℚ :=
  if radius < distance then 0
  else
    match falloff with
    | .constant => baseStrength
    | .linear => baseStrength * (1 - distance / radius)
    | .smooth => baseStrength * (1 - distance / radius * (distance / radius))

/-- The same function over `ℝ`, used where the source applies it to the
real-valued Euclidean distance `vertex.distanceTo(point)`. -/
noncomputable def calculateBrushStrengthR (distance radius : ℝ) (falloff : Falloff)
    (baseStrength : ℝ) : ℝ :=
  if radius < distance then 0
  else
    match falloff with
    | .constant => baseStrength
    | .linear => baseStrength * (1 - distance / radius)
    | .smooth => baseStrength * (1 - distance / radius * (distance / radius))

/-- `getVerticesInRadius` from src/utils/meshUtils.ts: iterate over all
vertex indices in ascending order and keep `i` when
`vertex(i).distanceTo(centerPoint) <= radius`.  The comparison is embedded
through `distLe` on the squared distance. -/
def getVerticesInRadius (positions : List Vec3) (centerPoint : Vec3)
    (radius : ℚ) : List Nat :=
  (List.range positions.length).filter
    (fun i => distLe (sqDist (positions.getD i ⟨0, 0, 0⟩) centerPoint) radius)

/-! ### Mesh loading (`loadMeshFromFile` in src/utils/meshUtils.ts)

The two format parsers (`STLLoader`, `OBJLoader` from three.js) are external
collaborators; their output — the raw `position` attribute array per parsed
(sub-)mesh — is the model's input.  A raw array element is `none` when the
parsed float is NaN or ±Infinity (the source checks
`isNaN(x) || !isFinite(x)`), otherwise `some q`. -/

/-- A parsed floating-point array entry: `none` models NaN/±Infinity. -/
abbrev FVal := Option ℚ

/-- `fileName.toLowerCase()`: character-wise lower-casing (ASCII, which is
all `Char.toLower` maps and all that matters for the two extensions). -/
def strToLower (s : String) : String :=
  ⟨s.data.map Char.toLower⟩

/-- `String.prototype.endsWith`: suffix test on the character sequence. -/
def strEndsWith (s suffix : String) : Bool :=
  suffix.data.isSuffixOf s.data

/-- The load-failure taxonomy: the three `throw new Error(...)` messages of
`loadMeshFromFile` (`'Unsupported file format'`,
`'Invalid geometry: ...'` / `'No valid mesh geometry found in OBJ file'`,
`'Invalid geometry: zero-sized bounding box'`). -/
inductive LoadError where
  | unsupportedFormat
  | invalidGeometry
  | degenerateGeometry
deriving DecidableEq, Repr

/-- Input to `loadMeshFromFile`: the file name plus what each parser would
deliver for the file bytes — the STL position array, and the position
arrays of the `THREE.Mesh` children of the OBJ container in traversal
order. -/
structure LoadInput where
  fileName : String
  stlPositions : List FVal
  objMeshes : List (List FVal)

/-- The per-sub-mesh validity test in the OBJ branch:
`position && position.count > 0 && position.array.length > 0` and the
NaN/Infinity scan.  (`count > 0` and `array.length > 0` are equivalent,
as `count = array.length / 3`.) -/
def isValidSub (a : List FVal) : Bool :=
  a.length != 0 && a.all (fun v => v.isSome)

/-- The format dispatch of `loadMeshFromFile`: choose the STL parse result
or the first valid OBJ sub-mesh by the (lower-cased) file-name suffix. -/
def selectRaw (inp : LoadInput) : Except LoadError (List FVal) :=
  if strEndsWith (strToLower inp.fileName) (".stl") then Except.ok inp.stlPositions
  else if strEndsWith (strToLower inp.fileName) (".obj") then
    match inp.objMeshes.find? isValidSub with
    | some g => Except.ok g
    | none => Except.error LoadError.invalidGeometry
  else Except.error LoadError.unsupportedFormat

/-- A finite value, with `0` standing in for the never-read `none` case. -/
def fvalOr0 (v : FVal) : ℚ :=
  v.getD 0

/-- The vertices of a raw position array: entry `i` is
`(raw[3i], raw[3i+1], raw[3i+2])`, for the `⌊length/3⌋` complete vertices.
three.js's `count = array.length / 3` is not floored, so when
`3 ∤ length` its bounding-box loop additionally reads the incomplete
trailing vertex (out-of-range reads are `undefined`, and NaN propagates
into the box); this model reads only complete vertices.  Every theorem
about bounding-box values is therefore guarded by `3 ∣ length` (both real
parsers emit such buffers).  The emptiness/NaN validation and hence the
`InvalidGeometry` classification never consult the bounding box, so that
observable is faithful at every length. -/
def toVertices (raw : List FVal) : List Vec3 :=
  (List.range (raw.length / 3)).map (fun i =>
    ⟨fvalOr0 (raw.getD (3 * i) none), fvalOr0 (raw.getD (3 * i + 1) none),
      fvalOr0 (raw.getD (3 * i + 2) none)⟩)

def foldMin (a : ℚ) (l : List ℚ) : ℚ :=
  l.foldl min a

def foldMax (a : ℚ) (l : List ℚ) : ℚ :=
  l.foldl max a

/-- Axis-wise minimum corner of the axis-aligned bounding box
(`geometry.computeBoundingBox()`; for an empty vertex list, three.js's
`getCenter`/`getSize` return the zero vector, modelled by the `[]` case). -/
def bboxLo : List Vec3 → Vec3
  | [] => ⟨0, 0, 0⟩
  | v :: t => ⟨foldMin v.x (t.map Vec3.x), foldMin v.y (t.map Vec3.y),
      foldMin v.z (t.map Vec3.z)⟩

/-- Axis-wise maximum corner of the axis-aligned bounding box. -/
def bboxHi : List Vec3 → Vec3
  | [] => ⟨0, 0, 0⟩
  | v :: t => ⟨foldMax v.x (t.map Vec3.x), foldMax v.y (t.map Vec3.y),
      foldMax v.z (t.map Vec3.z)⟩

/-- `box.getCenter(...)`: the midpoint of the bounding box. -/
def bboxCenter (l : List Vec3) : Vec3 :=
  ⟨((bboxLo l).x + (bboxHi l).x) / 2, ((bboxLo l).y + (bboxHi l).y) / 2,
    ((bboxLo l).z + (bboxHi l).z) / 2⟩

/-- `box.getSize(...)`: the extent of the bounding box. -/
def bboxSize (l : List Vec3) : Vec3 :=
  ⟨(bboxHi l).x - (bboxLo l).x, (bboxHi l).y - (bboxLo l).y,
    (bboxHi l).z - (bboxLo l).z⟩

/-- `const maxDim = Math.max(size.x, size.y, size.z)`. -/
def bboxMaxDim (l : List Vec3) : ℚ :=
  max (max (bboxSize l).x (bboxSize l).y) (bboxSize l).z

/-- The per-vertex effect of `geometry.translate(-center...)` followed by
`geometry.scale(s, s, s)`. -/
def nf (c : Vec3) (s : ℚ) (w : Vec3) : Vec3 :=
  ⟨(w.x - c.x) * s, (w.y - c.y) * s, (w.z - c.z) * s⟩

/-- `geometry.translate(-center...)` followed by
`geometry.scale(scale, scale, scale)` with `scale = 2 / maxDim`. -/
def normalizeVertices (l : List Vec3) : List Vec3 :=
  l.map (nf (bboxCenter l) (2 / bboxMaxDim l))

/-- `loadMeshFromFile` from src/utils/meshUtils.ts: format dispatch, the
`no position data` / NaN validation, the zero-bounding-box check, then
centering and scaling.  (There is no check that the array length is a
multiple of 3.) -/
def loadMeshFromFile (inp : LoadInput) : Except LoadError (List Vec3) :=
  match selectRaw inp with
  | Except.error e => Except.error e
  | Except.ok raw =>
    if raw.length = 0 then Except.error LoadError.invalidGeometry
    else if raw.all (fun v => v.isSome) then
      if bboxMaxDim (toVertices raw) = 0 then Except.error LoadError.degenerateGeometry
      else Except.ok (normalizeVertices (toVertices raw))
    else Except.error LoadError.invalidGeometry

/-- The extension test of the format dispatch, for stating C4. -/
def supportedExt (name : String) : Bool :=
  strEndsWith (strToLower name) (".stl") || strEndsWith (strToLower name) (".obj")

instance {ε α : Type} [DecidableEq ε] [DecidableEq α] : DecidableEq (Except ε α) :=
  fun a b =>
    match a, b with
    | Except.ok x, Except.ok y => decidable_of_iff (x = y) (by simp)
    | Except.error x, Except.error y => decidable_of_iff (x = y) (by simp)
    | Except.ok _, Except.error _ => isFalse (fun h => Except.noConfusion h)
    | Except.error _, Except.ok _ => isFalse (fun h => Except.noConfusion h)

/-! ### Label classes and colors -/

/-- An RGB triple of normalized `[0,1]` components. -/
structure Rgb where
  r : ℚ
  g : ℚ
  b : ℚ
deriving DecidableEq, Repr

/-- The `LabelClass` interface of the source: id, name, hex color string,
visibility flag. -/
structure LabelClass where
  id : String
  name : String
  color : String
  visible : Bool
deriving DecidableEq, Repr

/-- The value of one hex digit, case-insensitive (the `[a-f\d]` character
class with the `i` flag). -/
def hexDigitVal? (c : Char) : Option Nat :=
  if ('0' ≤ c ∧ c ≤ '9') then some (c.toNat - ('0').toNat)
  else if ('a' ≤ c ∧ c ≤ 'f') then some (c.toNat - ('a').toNat + 10)
  else if ('A' ≤ c ∧ c ≤ 'F') then some (c.toNat - ('A').toNat + 10)
  else none

/-- `hexToRgb` from src/utils/meshUtils.ts: match
`/^#?([a-f\d]{2})([a-f\d]{2})([a-f\d]{2})$/i`, convert each pair with
`parseInt(_, 16) / 255`, and fall back to black on no match. -/
def hexToRgb (hex : String) : Rgb :=
  let cs :=
    match hex.data with
    | '#' :: rest => rest
    | cs => cs
  match cs with
  | [c1, c2, c3, c4, c5, c6] =>
    match hexDigitVal? c1, hexDigitVal? c2, hexDigitVal? c3, hexDigitVal? c4,
        hexDigitVal? c5, hexDigitVal? c6 with
    | some a, some b, some c, some d, some e, some f =>
      ⟨((16 * a + b : ℕ) : ℚ) / 255, ((16 * c + d : ℕ) : ℚ) / 255,
        ((16 * e + f : ℕ) : ℚ) / 255⟩
    | _, _, _, _, _, _ => ⟨0, 0, 0⟩
  | _ => ⟨0, 0, 0⟩

/-- `initializeVertexColors`: every vertex gets the neutral gray 0.7. -/
def initializeVertexColors (vertexCount : Nat) : List ℚ :=
  List.replicate (3 * vertexCount) (7 / 10)

/-! ### JavaScript `Map<number, string>` model

A `Map` is a list of key-value entries in insertion order with pairwise
distinct keys.  `set` overwrites in place or appends, `delete` removes,
`get` looks up. -/

def mapGet (m : List (Nat × String)) (k : Nat) : Option String :=
  (m.find? (fun e => e.1 == k)).map (fun e => e.2)

def mapSet (m : List (Nat × String)) (k : Nat) (v : String) : List (Nat × String) :=
  if m.any (fun e => e.1 == k) then
    m.map (fun e => if e.1 == k then (k, v) else e)
  else m ++ [(k, v)]

def mapDelete (m : List (Nat × String)) (k : Nat) : List (Nat × String) :=
  m.filter (fun e => e.1 != k)

/-! ### Mode-partitioned MeshPainter variant (src/unnamed/part_002)

`paintAtPoint` there mutates only the two assignment maps — it never writes
the color buffer; coloring happens in a separate recompute effect. -/

/-- The `AppMode` type of the source:
`'mesh-labeling' | 'pain-assessment'`. -/
inductive AppMode where
  | meshLabeling
  | painAssessment
deriving DecidableEq, Repr

/-- The painting-relevant component state of the part_002 variant. -/
structure PState2 where
  positions : List Vec3
  vertexColors : List ℚ
  originalColors : List ℚ
  meshLabelVertices : List (Nat × String)
  painAreaVertices : List (Nat × String)

/-- One iteration of the `affectedVertices.forEach` loop of part_002's
`paintAtPoint`: compute the vertex's distance to the intersection point and
its brush strength; if positive, erase from or paint into the active
mode's map. -/
noncomputable def paint2Step (positions : List Vec3) (activeClass : Option LabelClass)
    (brush : BrushSettings) (appMode : AppMode) (intersectionPoint : Vec3)
    (shouldErase : Bool) (ms : List (Nat × String) × List (Nat × String))
    (vertexIndex : Nat) : List (Nat × String) × List (Nat × String) :=
  let vertex := positions.getD vertexIndex ⟨0, 0, 0⟩
  let strength := calculateBrushStrengthR (edist vertex intersectionPoint)
    (brush.size : ℝ) brush.falloff (brush.strength : ℝ)
  if 0 < strength then
    if shouldErase then
      match appMode with
      | AppMode.meshLabeling => (mapDelete ms.1 vertexIndex, ms.2)
      | AppMode.painAssessment => (ms.1, mapDelete ms.2 vertexIndex)
    else
      match activeClass with
      | some cls =>
        match appMode with
        | AppMode.meshLabeling => (mapSet ms.1 vertexIndex cls.id, ms.2)
        | AppMode.painAssessment => (ms.1, mapSet ms.2 vertexIndex cls.id)
      | none => ms
  else ms

/-- `paintAtPoint` of the part_002 variant: guard (cannot paint without an
active class), radius query, per-vertex map updates, publish.  The
`vertexColors`/`originalColors` buffers are passed through unchanged, as in
the source. -/
noncomputable def paintAtPoint2 (st : PState2) (activeClass : Option LabelClass)
    (brush : BrushSettings) (appMode : AppMode) (intersectionPoint : Vec3)
    (shouldErase : Bool) : PState2 :=
  if shouldErase = false ∧ activeClass = none then st
  else
    let ms := (getVerticesInRadius st.positions intersectionPoint brush.size).foldl
      (paint2Step st.positions activeClass brush appMode intersectionPoint shouldErase)
      (st.meshLabelVertices, st.painAreaVertices)
    { st with meshLabelVertices := ms.1, painAreaVertices := ms.2 }

/-- Overwrite the RGB cells `3v`, `3v+1`, `3v+2` (out-of-range writes are
silently dropped, as on a `Float32Array`). -/
def writeRGB (cols : List ℚ) (vertexIndex : Nat) (rgb : Rgb) : List ℚ :=
  ((cols.set (3 * vertexIndex) rgb.r).set (3 * vertexIndex + 1) rgb.g).set
    (3 * vertexIndex + 2) rgb.b

/-- Read the RGB cells of vertex `v`. -/
def readRGB (cols : List ℚ) (vertexIndex : Nat) : Rgb :=
  ⟨cols.getD (3 * vertexIndex) 0, cols.getD (3 * vertexIndex + 1) 0,
    cols.getD (3 * vertexIndex + 2) 0⟩

/-- One entry of the `meshLabelVertices.forEach` pass of part_002's color
recompute effect: resolve the entry's class in `labelClasses`; overwrite
the vertex's RGB only when it resolves and is visible. -/
def labelStep (labelClasses : List LabelClass) (cols : List ℚ) (e : Nat × String) :
    List ℚ :=
  match labelClasses.find? (fun cls => cls.id == e.2) with
  | some labelClass =>
    if labelClass.visible then writeRGB cols e.1 (hexToRgb labelClass.color) else cols
  | none => cols

def labelPass (labelClasses : List LabelClass) (m : List (Nat × String))
    (cols : List ℚ) : List ℚ :=
  m.foldl (labelStep labelClasses) cols

/-- One entry of the `painAreaVertices.forEach` pass: the source colors by
the `painClass` prop (when present and visible), ignoring the entry's
stored class id. -/
def painStep (painClass : Option LabelClass) (cols : List ℚ) (e : Nat × String) :
    List ℚ :=
  match painClass with
  | some pc => if pc.visible then writeRGB cols e.1 (hexToRgb pc.color) else cols
  | none => cols

def painPass (painClass : Option LabelClass) (m : List (Nat × String))
    (cols : List ℚ) : List ℚ :=
  m.foldl (painStep painClass) cols

/-- The color a mesh-label entry of class `cid` yields for its vertex:
the resolved, visible class's color, else the fallback (what the vertex
already held). -/
def resolveColor (labelClasses : List LabelClass) (cid : String) (fallback : Rgb) :
    Rgb :=
  match labelClasses.find? (fun c => c.id == cid) with
  | some cls => if cls.visible then hexToRgb cls.color else fallback
  | none => fallback

/-- The color a pain-area entry yields for its vertex. -/
def painColor (painClass : Option LabelClass) (fallback : Rgb) : Rgb :=
  match painClass with
  | some pc => if pc.visible then hexToRgb pc.color else fallback
  | none => fallback

/-- The color recompute effect of part_002: start from a fresh copy of the
original colors, apply the mesh-label map, then the pain-area map on top. -/
def recompute2 (originalColors : List ℚ) (labelClasses : List LabelClass)
    (painClass : Option LabelClass)
    (meshLabelVertices painAreaVertices : List (Nat × String)) : List ℚ :=
  painPass painClass painAreaVertices
    (labelPass labelClasses meshLabelVertices originalColors)

/-- The layering condition under which the pain-area pass writes vertex
`v`: the vertex is in the pain map and the pain class is present and
visible. -/
def painApplies (painClass : Option LabelClass)
    (painAreaVertices : List (Nat × String)) (v : Nat) : Prop :=
  v ∈ painAreaVertices.map Prod.fst ∧ ∃ pc, painClass = some pc ∧ pc.visible = true

/-- The condition under which the mesh-label pass writes vertex `v`: the
vertex has an entry whose class resolves and is visible. -/
def labelApplies (labelClasses : List LabelClass)
    (meshLabelVertices : List (Nat × String)) (v : Nat) : Prop :=
  ∃ cid cls, mapGet meshLabelVertices v = some cid ∧
    labelClasses.find? (fun c => c.id == cid) = some cls ∧ cls.visible = true

/-! ### Blend-on-color-buffer MeshPainter variant (src/unnamed/part_003)

This variant keeps a single `paintedVertices` map and blends the color
buffer incrementally on every paint/erase.  Colors are real-valued because
the blend weight is the brush strength at the real Euclidean distance. -/

/-- The painting-relevant component state of the part_003 variant. -/
structure PState3 where
  positions : List Vec3
  vertexColors : List ℝ
  originalColors : List ℝ
  paintedVertices : List (Nat × String)

/-- `newColors[i] = current + (target - current) * strength` for one cell
(out-of-range writes are dropped, as on a `Float32Array`). -/
noncomputable def blendCellR (cols : List ℝ) (i : Nat) (target s : ℝ) : List ℝ :=
  cols.set i (cols.getD i 0 + (target - cols.getD i 0) * s)

/-- One iteration of the `affectedVertices.forEach` loop of part_003's
`paintAtPoint`: if the strength is positive, erase (delete from the map and
blend the three cells back toward the original colors) or paint (insert
into the map and blend toward the class color). -/
noncomputable def paint3Step (positions : List Vec3) (originalColors : List ℝ)
    (activeClass : Option LabelClass) (brush : BrushSettings)
    (intersectionPoint : Vec3) (shouldErase : Bool)
    (acc : List (Nat × String) × List ℝ) (vertexIndex : Nat) :
    List (Nat × String) × List ℝ :=
  let vertex := positions.getD vertexIndex ⟨0, 0, 0⟩
  let strength := calculateBrushStrengthR (edist vertex intersectionPoint)
    (brush.size : ℝ) brush.falloff (brush.strength : ℝ)
  if 0 < strength then
    if shouldErase then
      (mapDelete acc.1 vertexIndex,
        blendCellR (blendCellR (blendCellR acc.2 (3 * vertexIndex)
            (originalColors.getD (3 * vertexIndex) 0) strength)
          (3 * vertexIndex + 1) (originalColors.getD (3 * vertexIndex + 1) 0) strength)
          (3 * vertexIndex + 2) (originalColors.getD (3 * vertexIndex + 2) 0) strength)
    else
      match activeClass with
      | some cls =>
        (mapSet acc.1 vertexIndex cls.id,
          blendCellR (blendCellR (blendCellR acc.2 (3 * vertexIndex)
              ((hexToRgb cls.color).r : ℝ) strength)
            (3 * vertexIndex + 1) ((hexToRgb cls.color).g : ℝ) strength)
            (3 * vertexIndex + 2) ((hexToRgb cls.color).b : ℝ) strength)
      | none => acc
  else acc

/-- `paintAtPoint` of the part_003 variant. -/
noncomputable def paintAtPoint3 (st : PState3) (activeClass : Option LabelClass)
    (brush : BrushSettings) (intersectionPoint : Vec3) (shouldErase : Bool) :
    PState3 :=
  if shouldErase = false ∧ activeClass = none then st
  else
    let acc := (getVerticesInRadius st.positions intersectionPoint brush.size).foldl
      (paint3Step st.positions st.originalColors activeClass brush intersectionPoint
        shouldErase)
      (st.paintedVertices, st.vertexColors)
    { st with paintedVertices := acc.1, vertexColors := acc.2 }

/-- Read the RGB cells of vertex `v` from a real-valued buffer. -/
noncomputable def readRGBR (cols : List ℝ) (vertexIndex : Nat) : ℝ × ℝ × ℝ :=
  (cols.getD (3 * vertexIndex) 0, cols.getD (3 * vertexIndex + 1) 0,
    cols.getD (3 * vertexIndex + 2) 0)

/-! ### Stroke controller (part_003's mouse handlers and `useFrame`) -/

/-- `{isMouseDown, isRightMouseDown, lastPaintPoint}` of the component. -/
structure StrokeState where
  isMouseDown : Bool
  isRightMouseDown : Bool
  lastPaintPoint : Option Vec3
deriving DecidableEq, Repr

/-- `handleMouseDown`: button 0 sets `isMouseDown`, button 2 sets
`isRightMouseDown`. -/
def handleMouseDown (button : Nat) (st : StrokeState) : StrokeState :=
  if button = 0 then { st with isMouseDown := true }
  else if button = 2 then { st with isRightMouseDown := true }
  else st

/-- `handleMouseUp`: button 0 clears `isMouseDown` and resets
`lastPaintPoint` to `none`; button 2 clears `isRightMouseDown`. -/
def handleMouseUp (button : Nat) (st : StrokeState) : StrokeState :=
  if button = 0 then { st with isMouseDown := false, lastPaintPoint := none }
  else if button = 2 then { st with isRightMouseDown := false }
  else st

/-- The movement gate of the `useFrame` callback:
`!lastPaintPoint.current ||
 lastPaintPoint.current.distanceTo(p) > brushSettings.size * 0.1`
(the comparison embedded through `distLe` on squares; `0.1` is `1/10`). -/
def moveGate (lastPaintPoint : Option Vec3) (p : Vec3) (brushSize : ℚ) : Bool :=
  match lastPaintPoint with
  | none => true
  | some q => !(distLe (sqDist q p) (brushSize * (1 / 10)))

/-- One `useFrame` tick of part_003: bail out unless a paint/erase tool is
active and a mouse button is held; with a mesh intersection `p`, apply one
`paintAtPoint(p, isRightMouseDown || isErasing)` and record `p` as the last
sample exactly when the movement gate passes.  The second component lists
the applications performed this tick (point, shouldErase). -/
def frameTick3 (isPainting isErasing : Bool) (brushSize : ℚ) (st : StrokeState)
    (hit : Option Vec3) : StrokeState × List (Vec3 × Bool) :=
  if !isPainting || (!st.isMouseDown && !st.isRightMouseDown) then (st, [])
  else
    match hit with
    | none => (st, [])
    | some p =>
      if moveGate st.lastPaintPoint p brushSize then
        ({ st with lastPaintPoint := some p }, [(p, st.isRightMouseDown || isErasing)])
      else (st, [])

/-! ### Helper lemmas -/

theorem sqDist_nonneg (a b : Vec3) : 0 ≤ sqDist a b := by
  unfold sqDist
  have hx := mul_self_nonneg (a.x - b.x)
  have hy := mul_self_nonneg (a.y - b.y)
  have hz := mul_self_nonneg (a.z - b.z)
  linarith

theorem distLe_iff (d2 r : ℚ) (h : 0 ≤ d2) :
    distLe d2 r = true ↔ Real.sqrt ((d2 : ℚ) : ℝ) ≤ ((r : ℚ) : ℝ) := by
  unfold distLe
  simp only [decide_eq_true_eq]
  constructor
  · rintro ⟨hr, hle⟩
    have h1 : Real.sqrt ((d2 : ℚ) : ℝ) ≤ Real.sqrt (((r : ℚ) : ℝ) * ((r : ℚ) : ℝ)) := by
      apply Real.sqrt_le_sqrt
      exact_mod_cast hle
    have h2 : Real.sqrt (((r : ℚ) : ℝ) * ((r : ℚ) : ℝ)) = ((r : ℚ) : ℝ) := by
      apply Real.sqrt_mul_self
      exact_mod_cast hr
    rw [h2] at h1
    exact h1
  · intro hle
    have hs : (0 : ℝ) ≤ Real.sqrt ((d2 : ℚ) : ℝ) := Real.sqrt_nonneg _
    have hr : (0 : ℝ) ≤ ((r : ℚ) : ℝ) := le_trans hs hle
    constructor
    · exact_mod_cast hr
    · have hsq : Real.sqrt ((d2 : ℚ) : ℝ) * Real.sqrt ((d2 : ℚ) : ℝ) ≤
          ((r : ℚ) : ℝ) * ((r : ℚ) : ℝ) := mul_le_mul hle hle hs hr
      rw [Real.mul_self_sqrt (by exact_mod_cast h)] at hsq
      exact_mod_cast hsq

theorem edist_le_of_distLe (a b : Vec3) (r : ℚ) (h : distLe (sqDist a b) r = true) :
    edist a b ≤ ((r : ℚ) : ℝ) := by
  rw [edist]
  exact (distLe_iff _ _ (sqDist_nonneg a b)).1 h

theorem foldMin_le_init (a : ℚ) (l : List ℚ) : foldMin a l ≤ a := by
  induction l generalizing a with
  | nil => exact le_refl a
  | cons x t ih => exact le_trans (ih (min a x)) (min_le_left a x)

theorem init_le_foldMax (a : ℚ) (l : List ℚ) : a ≤ foldMax a l := by
  induction l generalizing a with
  | nil => exact le_refl a
  | cons x t ih => exact le_trans (le_max_left a x) (ih (max a x))

theorem bboxSize_nonneg (l : List Vec3) :
    0 ≤ (bboxSize l).x ∧ 0 ≤ (bboxSize l).y ∧ 0 ≤ (bboxSize l).z := by
  cases l with
  | nil => refine ⟨?_, ?_, ?_⟩ <;> simp [bboxSize, bboxLo, bboxHi]
  | cons v t =>
    refine ⟨?_, ?_, ?_⟩ <;>
      · simp only [bboxSize, bboxLo, bboxHi, sub_nonneg]
        exact le_trans (foldMin_le_init _ _) (init_le_foldMax _ _)

theorem bboxMaxDim_nonneg (l : List Vec3) : 0 ≤ bboxMaxDim l :=
  le_trans (bboxSize_nonneg l).1 (le_trans (le_max_left _ _) (le_max_left _ _))

theorem min_affine (a b c s : ℚ) (hs : 0 ≤ s) :
    (min a b - c) * s = min ((a - c) * s) ((b - c) * s) := by
  rcases le_total a b with h | h
  · rw [min_eq_left h, min_eq_left (mul_le_mul_of_nonneg_right (by linarith) hs)]
  · rw [min_eq_right h, min_eq_right (mul_le_mul_of_nonneg_right (by linarith) hs)]

theorem max_affine (a b c s : ℚ) (hs : 0 ≤ s) :
    (max a b - c) * s = max ((a - c) * s) ((b - c) * s) := by
  rcases le_total a b with h | h
  · rw [max_eq_right h, max_eq_right (mul_le_mul_of_nonneg_right (by linarith) hs)]
  · rw [max_eq_left h, max_eq_left (mul_le_mul_of_nonneg_right (by linarith) hs)]

theorem foldMin_affine (l : List ℚ) (a c s : ℚ) (hs : 0 ≤ s) :
    foldMin ((a - c) * s) (l.map (fun x => (x - c) * s)) = (foldMin a l - c) * s := by
  induction l generalizing a with
  | nil => rfl
  | cons x t ih =>
    show foldMin (min ((a - c) * s) ((x - c) * s)) (t.map (fun x => (x - c) * s)) = _
    rw [← min_affine a x c s hs, ih (min a x)]
    rfl

theorem foldMax_affine (l : List ℚ) (a c s : ℚ) (hs : 0 ≤ s) :
    foldMax ((a - c) * s) (l.map (fun x => (x - c) * s)) = (foldMax a l - c) * s := by
  induction l generalizing a with
  | nil => rfl
  | cons x t ih =>
    show foldMax (max ((a - c) * s) ((x - c) * s)) (t.map (fun x => (x - c) * s)) = _
    rw [← max_affine a x c s hs, ih (max a x)]
    rfl

theorem bboxLo_map_nf (v : Vec3) (t : List Vec3) (c : Vec3) (s : ℚ) (hs : 0 ≤ s) :
    bboxLo ((v :: t).map (nf c s)) = nf c s (bboxLo (v :: t)) := by
  show bboxLo (nf c s v :: t.map (nf c s)) = _
  have hx : (t.map (nf c s)).map Vec3.x = (t.map Vec3.x).map (fun a => (a - c.x) * s) := by
    rw [List.map_map, List.map_map]
    rfl
  have hy : (t.map (nf c s)).map Vec3.y = (t.map Vec3.y).map (fun a => (a - c.y) * s) := by
    rw [List.map_map, List.map_map]
    rfl
  have hz : (t.map (nf c s)).map Vec3.z = (t.map Vec3.z).map (fun a => (a - c.z) * s) := by
    rw [List.map_map, List.map_map]
    rfl
  show (⟨foldMin (nf c s v).x ((t.map (nf c s)).map Vec3.x),
      foldMin (nf c s v).y ((t.map (nf c s)).map Vec3.y),
      foldMin (nf c s v).z ((t.map (nf c s)).map Vec3.z)⟩ : Vec3) = _
  rw [hx, hy, hz]
  show (⟨foldMin ((v.x - c.x) * s) ((t.map Vec3.x).map (fun a => (a - c.x) * s)),
      foldMin ((v.y - c.y) * s) ((t.map Vec3.y).map (fun a => (a - c.y) * s)),
      foldMin ((v.z - c.z) * s) ((t.map Vec3.z).map (fun a => (a - c.z) * s))⟩ : Vec3) = _
  rw [foldMin_affine _ _ _ _ hs, foldMin_affine _ _ _ _ hs, foldMin_affine _ _ _ _ hs]
  rfl

theorem bboxHi_map_nf (v : Vec3) (t : List Vec3) (c : Vec3) (s : ℚ) (hs : 0 ≤ s) :
    bboxHi ((v :: t).map (nf c s)) = nf c s (bboxHi (v :: t)) := by
  show bboxHi (nf c s v :: t.map (nf c s)) = _
  have hx : (t.map (nf c s)).map Vec3.x = (t.map Vec3.x).map (fun a => (a - c.x) * s) := by
    rw [List.map_map, List.map_map]
    rfl
  have hy : (t.map (nf c s)).map Vec3.y = (t.map Vec3.y).map (fun a => (a - c.y) * s) := by
    rw [List.map_map, List.map_map]
    rfl
  have hz : (t.map (nf c s)).map Vec3.z = (t.map Vec3.z).map (fun a => (a - c.z) * s) := by
    rw [List.map_map, List.map_map]
    rfl
  show (⟨foldMax (nf c s v).x ((t.map (nf c s)).map Vec3.x),
      foldMax (nf c s v).y ((t.map (nf c s)).map Vec3.y),
      foldMax (nf c s v).z ((t.map (nf c s)).map Vec3.z)⟩ : Vec3) = _
  rw [hx, hy, hz]
  show (⟨foldMax ((v.x - c.x) * s) ((t.map Vec3.x).map (fun a => (a - c.x) * s)),
      foldMax ((v.y - c.y) * s) ((t.map Vec3.y).map (fun a => (a - c.y) * s)),
      foldMax ((v.z - c.z) * s) ((t.map Vec3.z).map (fun a => (a - c.z) * s))⟩ : Vec3) = _
  rw [foldMax_affine _ _ _ _ hs, foldMax_affine _ _ _ _ hs, foldMax_affine _ _ _ _ hs]
  rfl

theorem normalize_bbox (l : List Vec3) (hne : l ≠ []) (hmd : bboxMaxDim l ≠ 0) :
    bboxMaxDim (normalizeVertices l) = 2 ∧
      bboxCenter (normalizeVertices l) = ⟨0, 0, 0⟩ := by
  obtain ⟨v, t, rfl⟩ := List.exists_cons_of_ne_nil hne
  have hmdpos : 0 < bboxMaxDim (v :: t) :=
    lt_of_le_of_ne (bboxMaxDim_nonneg _) (Ne.symm hmd)
  set c : Vec3 := bboxCenter (v :: t) with hc
  set s : ℚ := 2 / bboxMaxDim (v :: t) with hsdef
  have hs : 0 ≤ s := by positivity
  have hlo : bboxLo (normalizeVertices (v :: t)) = nf c s (bboxLo (v :: t)) :=
    bboxLo_map_nf v t c s hs
  have hhi : bboxHi (normalizeVertices (v :: t)) = nf c s (bboxHi (v :: t)) :=
    bboxHi_map_nf v t c s hs
  have hsize : bboxSize (normalizeVertices (v :: t)) =
      ⟨(bboxSize (v :: t)).x * s, (bboxSize (v :: t)).y * s, (bboxSize (v :: t)).z * s⟩ := by
    simp only [bboxSize, hlo, hhi, nf, Vec3.mk.injEq]
    refine ⟨by ring, by ring, by ring⟩
  have hmd2 : bboxMaxDim (normalizeVertices (v :: t)) = bboxMaxDim (v :: t) * s := by
    rw [bboxMaxDim, hsize, bboxMaxDim]
    show max (max ((bboxSize (v :: t)).x * s) ((bboxSize (v :: t)).y * s))
        ((bboxSize (v :: t)).z * s) = _
    rw [← max_mul_of_nonneg _ _ hs, ← max_mul_of_nonneg _ _ hs]
  constructor
  · rw [hmd2, hsdef]
    field_simp
  · have hcx : c.x = ((bboxLo (v :: t)).x + (bboxHi (v :: t)).x) / 2 := by rw [hc]; rfl
    have hcy : c.y = ((bboxLo (v :: t)).y + (bboxHi (v :: t)).y) / 2 := by rw [hc]; rfl
    have hcz : c.z = ((bboxLo (v :: t)).z + (bboxHi (v :: t)).z) / 2 := by rw [hc]; rfl
    rw [bboxCenter, hlo, hhi]
    simp only [nf, Vec3.mk.injEq]
    refine ⟨?_, ?_, ?_⟩
    · rw [hcx]; ring
    · rw [hcy]; ring
    · rw [hcz]; ring

/-! ### Claim theorems -/

/-- C1: for `radius > 0`, `distance ≥ 0` and `baseStrength ∈ (0,1]`,
`calculateBrushStrength` returns `0` outside the radius, the documented
falloff formula inside it, and its value always lies in
`[0, baseStrength]`. -/
theorem c1_brush_strength_spec (distance radius baseStrength : ℚ) (falloff : Falloff)
    (hr : 0 < radius) (hd : 0 ≤ distance) (hb0 : 0 < baseStrength)
    (hb1 : baseStrength ≤ 1) :
    (radius < distance → calculateBrushStrength distance radius falloff baseStrength = 0) ∧
    (distance ≤ radius →
      calculateBrushStrength distance radius falloff baseStrength =
        match falloff with
        | .constant => baseStrength
        | .linear => baseStrength * (1 - distance / radius)
        | .smooth => baseStrength * (1 - distance / radius * (distance / radius))) ∧
    0 ≤ calculateBrushStrength distance radius falloff baseStrength ∧
    calculateBrushStrength distance radius falloff baseStrength ≤ baseStrength := by
  refine ⟨?_, ?_, ?_⟩
  · intro h
    unfold calculateBrushStrength
    rw [if_pos h]
  · intro h
    unfold calculateBrushStrength
    rw [if_neg (not_lt.2 h)]
  · by_cases hlt : radius < distance
    · unfold calculateBrushStrength
      rw [if_pos hlt]
      exact ⟨le_refl 0, hb0.le⟩
    · have ht0 : 0 ≤ distance / radius := div_nonneg hd hr.le
      have ht1 : distance / radius ≤ 1 := (div_le_one hr).2 (not_lt.1 hlt)
      unfold calculateBrushStrength
      rw [if_neg hlt]
      have hsq1 : distance / radius * (distance / radius) ≤ 1 :=
        mul_le_one ht1 ht0 ht1
      have hsq0 : 0 ≤ distance / radius * (distance / radius) := mul_nonneg ht0 ht0
      cases falloff <;> dsimp only
      · constructor
        · nlinarith
        · nlinarith
      · constructor
        · exact mul_nonneg hb0.le (by linarith)
        · nlinarith [mul_nonneg hb0.le hsq0]
      · exact ⟨hb0.le, le_refl _⟩

theorem c1_brush_strength_spec_witness :
    0 ≤ calculateBrushStrength 1 2 Falloff.linear (4/5) ∧
    calculateBrushStrength 1 2 Falloff.linear (4/5) ≤ 4/5 :=
  ⟨(c1_brush_strength_spec 1 2 (4/5) Falloff.linear (by norm_num) (by norm_num)
      (by norm_num) (by norm_num)).2.2.1,
   (c1_brush_strength_spec 1 2 (4/5) Falloff.linear (by norm_num) (by norm_num)
      (by norm_num) (by norm_num)).2.2.2⟩

/-- C9: for `linear` and `smooth` falloff with fixed `radius > 0` and
`baseStrength ∈ (0,1]`, the brush strength is monotonically non-increasing
in the distance on `[0, radius]`, equals `baseStrength` at distance `0`,
and equals `0` at distance `radius`. -/
theorem c9_falloff_monotone (radius baseStrength : ℚ) (falloff : Falloff)
    (hf : falloff = Falloff.linear ∨ falloff = Falloff.smooth)
    (hr : 0 < radius) (hb0 : 0 < baseStrength) (hb1 : baseStrength ≤ 1) :
    (∀ d1 d2 : ℚ, 0 ≤ d1 → d1 ≤ d2 → d2 ≤ radius →
      calculateBrushStrength d2 radius falloff baseStrength ≤
        calculateBrushStrength d1 radius falloff baseStrength) ∧
    calculateBrushStrength 0 radius falloff baseStrength = baseStrength ∧
    calculateBrushStrength radius radius falloff baseStrength = 0 := by
  have hdiv : radius / radius = 1 := div_self hr.ne.symm
  rcases hf with rfl | rfl
  · refine ⟨?_, ?_, ?_⟩
    · intro d1 d2 h1 h12 h2r
      have h1r : d1 ≤ radius := le_trans h12 h2r
      have ht : d1 / radius ≤ d2 / radius := by gcongr
      unfold calculateBrushStrength
      rw [if_neg (not_lt.2 h2r), if_neg (not_lt.2 h1r)]
      exact mul_le_mul_of_nonneg_left (sub_le_sub_left ht 1) hb0.le
    · unfold calculateBrushStrength
      rw [if_neg (not_lt.2 hr.le)]
      simp
    · unfold calculateBrushStrength
      rw [if_neg (lt_irrefl radius), hdiv]
      simp
  · refine ⟨?_, ?_, ?_⟩
    · intro d1 d2 h1 h12 h2r
      have h1r : d1 ≤ radius := le_trans h12 h2r
      have ht : d1 / radius ≤ d2 / radius := by gcongr
      have ht0 : 0 ≤ d1 / radius := div_nonneg h1 hr.le
      have hsq : d1 / radius * (d1 / radius) ≤ d2 / radius * (d2 / radius) :=
        mul_le_mul ht ht ht0 (le_trans ht0 ht)
      unfold calculateBrushStrength
      rw [if_neg (not_lt.2 h2r), if_neg (not_lt.2 h1r)]
      exact mul_le_mul_of_nonneg_left (sub_le_sub_left hsq 1) hb0.le
    · unfold calculateBrushStrength
      rw [if_neg (not_lt.2 hr.le)]
      simp
    · unfold calculateBrushStrength
      rw [if_neg (lt_irrefl radius), hdiv]
      simp

theorem c9_falloff_monotone_witness :
    calculateBrushStrength 2 2 Falloff.smooth 1 ≤ calculateBrushStrength 1 2 Falloff.smooth 1 ∧
    calculateBrushStrength 0 2 Falloff.smooth 1 = 1 ∧
    calculateBrushStrength 2 2 Falloff.smooth 1 = 0 :=
  ⟨(c9_falloff_monotone 2 1 Falloff.smooth (Or.inr rfl) (by norm_num) (by norm_num)
      (by norm_num)).1 1 2 (by norm_num) (by norm_num) (by norm_num),
   (c9_falloff_monotone 2 1 Falloff.smooth (Or.inr rfl) (by norm_num) (by norm_num)
      (by norm_num)).2.1,
   (c9_falloff_monotone 2 1 Falloff.smooth (Or.inr rfl) (by norm_num) (by norm_num)
      (by norm_num)).2.2⟩

/-- C2: `getVerticesInRadius` returns exactly the indices
`i < positions.length` whose Euclidean distance to the center is at most
the radius, in strictly ascending order without duplicates. -/
theorem c2_radius_query (positions : List Vec3) (centerPoint : Vec3) (radius : ℚ) :
    List.Sorted (· < ·) (getVerticesInRadius positions centerPoint radius) ∧
    (getVerticesInRadius positions centerPoint radius).Nodup ∧
    ∀ i : Nat, i ∈ getVerticesInRadius positions centerPoint radius ↔
      i < positions.length ∧
        edist (positions.getD i ⟨0, 0, 0⟩) centerPoint ≤ ((radius : ℚ) : ℝ) := by
  refine ⟨(List.sorted_lt_range _).filter _, (List.nodup_range _).filter _, ?_⟩
  intro i
  rw [getVerticesInRadius, List.mem_filter, List.mem_range]
  refine and_congr_right fun _ => ?_
  rw [edist]
  exact distLe_iff _ _ (sqDist_nonneg _ _)

theorem loadMeshFromFile_ok_sel (inp : LoadInput) (raw : List FVal)
    (h : selectRaw inp = Except.ok raw) :
    loadMeshFromFile inp =
      if raw.length = 0 then Except.error LoadError.invalidGeometry
      else if raw.all (fun v => v.isSome) then
        if bboxMaxDim (toVertices raw) = 0 then Except.error LoadError.degenerateGeometry
        else Except.ok (normalizeVertices (toVertices raw))
      else Except.error LoadError.invalidGeometry := by
  unfold loadMeshFromFile
  rw [h]

theorem loadMeshFromFile_error_sel (inp : LoadInput) (e : LoadError)
    (h : selectRaw inp = Except.error e) :
    loadMeshFromFile inp = Except.error e := by
  unfold loadMeshFromFile
  rw [h]

theorem selectRaw_stl (inp : LoadInput)
    (h : strEndsWith (strToLower inp.fileName) (".stl") = true) :
    selectRaw inp = Except.ok inp.stlPositions := by
  unfold selectRaw
  rw [if_pos h]

theorem selectRaw_obj (inp : LoadInput)
    (h1 : strEndsWith (strToLower inp.fileName) (".stl") = false)
    (h2 : strEndsWith (strToLower inp.fileName) (".obj") = true) :
    selectRaw inp =
      match inp.objMeshes.find? isValidSub with
      | some g => Except.ok g
      | none => Except.error LoadError.invalidGeometry := by
  unfold selectRaw
  rw [if_neg (by rw [h1]; exact Bool.false_ne_true), if_pos h2]

theorem paint2Step_meshLabeling_snd (positions : List Vec3)
    (activeClass : Option LabelClass) (brush : BrushSettings) (p : Vec3)
    (shouldErase : Bool) (ms : List (Nat × String) × List (Nat × String))
    (vertexIndex : Nat) :
    (paint2Step positions activeClass brush AppMode.meshLabeling p shouldErase ms
      vertexIndex).2 = ms.2 := by
  unfold paint2Step
  dsimp only
  split_ifs with h1 h2
  · rfl
  · cases activeClass <;> rfl
  · rfl

theorem paint2Step_painAssessment_fst (positions : List Vec3)
    (activeClass : Option LabelClass) (brush : BrushSettings) (p : Vec3)
    (shouldErase : Bool) (ms : List (Nat × String) × List (Nat × String))
    (vertexIndex : Nat) :
    (paint2Step positions activeClass brush AppMode.painAssessment p shouldErase ms
      vertexIndex).1 = ms.1 := by
  unfold paint2Step
  dsimp only
  split_ifs with h1 h2
  · rfl
  · cases activeClass <;> rfl
  · rfl

theorem paint2_foldl_meshLabeling_snd (positions : List Vec3)
    (activeClass : Option LabelClass) (brush : BrushSettings) (p : Vec3)
    (shouldErase : Bool) (l : List Nat)
    (ms : List (Nat × String) × List (Nat × String)) :
    (l.foldl (paint2Step positions activeClass brush AppMode.meshLabeling p shouldErase)
      ms).2 = ms.2 := by
  induction l generalizing ms with
  | nil => rfl
  | cons a t ih =>
    rw [List.foldl_cons, ih, paint2Step_meshLabeling_snd]

theorem paint2_foldl_painAssessment_fst (positions : List Vec3)
    (activeClass : Option LabelClass) (brush : BrushSettings) (p : Vec3)
    (shouldErase : Bool) (l : List Nat)
    (ms : List (Nat × String) × List (Nat × String)) :
    (l.foldl (paint2Step positions activeClass brush AppMode.painAssessment p shouldErase)
      ms).1 = ms.1 := by
  induction l generalizing ms with
  | nil => rfl
  | cons a t ih =>
    rw [List.foldl_cons, ih, paint2Step_painAssessment_fst]

theorem getD_writeRGB_ne_cell (cols : List ℚ) (w : Nat) (rgb : Rgb) (j : Nat)
    (h0 : j ≠ 3 * w) (h1 : j ≠ 3 * w + 1) (h2 : j ≠ 3 * w + 2) :
    (writeRGB cols w rgb).getD j 0 = cols.getD j 0 := by
  unfold writeRGB
  rw [List.getD_eq_getElem?_getD, List.getElem?_set_ne (Ne.symm h2),
    List.getElem?_set_ne (Ne.symm h1), List.getElem?_set_ne (Ne.symm h0),
    ← List.getD_eq_getElem?_getD]

theorem readRGB_writeRGB_self (cols : List ℚ) (w : Nat) (rgb : Rgb)
    (h : 3 * w + 2 < cols.length) :
    readRGB (writeRGB cols w rgb) w = rgb := by
  have hr : (writeRGB cols w rgb).getD (3 * w) 0 = rgb.r := by
    unfold writeRGB
    rw [List.getD_eq_getElem?_getD, List.getElem?_set_ne (show 3 * w + 2 ≠ 3 * w by omega),
      List.getElem?_set_ne (show 3 * w + 1 ≠ 3 * w by omega),
      List.getElem?_set_self (show 3 * w < cols.length by omega)]
    rfl
  have hg : (writeRGB cols w rgb).getD (3 * w + 1) 0 = rgb.g := by
    unfold writeRGB
    rw [List.getD_eq_getElem?_getD, List.getElem?_set_ne (show 3 * w + 2 ≠ 3 * w + 1 by omega),
      List.getElem?_set_self
        (show 3 * w + 1 < (cols.set (3 * w) rgb.r).length by
          rw [List.length_set]; omega)]
    rfl
  have hb : (writeRGB cols w rgb).getD (3 * w + 2) 0 = rgb.b := by
    unfold writeRGB
    rw [List.getD_eq_getElem?_getD, List.getElem?_set_self
      (show 3 * w + 2 < ((cols.set (3 * w) rgb.r).set (3 * w + 1) rgb.g).length by
        rw [List.length_set, List.length_set]; omega)]
    rfl
  show (⟨(writeRGB cols w rgb).getD (3 * w) 0, (writeRGB cols w rgb).getD (3 * w + 1) 0,
    (writeRGB cols w rgb).getD (3 * w + 2) 0⟩ : Rgb) = rgb
  rw [hr, hg, hb]

theorem readRGB_writeRGB_ne (cols : List ℚ) (v w : Nat) (rgb : Rgb) (h : w ≠ v) :
    readRGB (writeRGB cols w rgb) v = readRGB cols v := by
  show (⟨(writeRGB cols w rgb).getD (3 * v) 0, (writeRGB cols w rgb).getD (3 * v + 1) 0,
    (writeRGB cols w rgb).getD (3 * v + 2) 0⟩ : Rgb) = _
  rw [getD_writeRGB_ne_cell cols w rgb (3 * v) (by omega) (by omega) (by omega),
    getD_writeRGB_ne_cell cols w rgb (3 * v + 1) (by omega) (by omega) (by omega),
    getD_writeRGB_ne_cell cols w rgb (3 * v + 2) (by omega) (by omega) (by omega)]
  rfl

theorem writeRGB_length (cols : List ℚ) (w : Nat) (rgb : Rgb) :
    (writeRGB cols w rgb).length = cols.length := by
  unfold writeRGB
  rw [List.length_set, List.length_set, List.length_set]

theorem labelStep_length (labelClasses : List LabelClass) (cols : List ℚ)
    (e : Nat × String) : (labelStep labelClasses cols e).length = cols.length := by
  unfold labelStep
  cases labelClasses.find? (fun cls => cls.id == e.2) with
  | none => rfl
  | some cls =>
    dsimp only
    split_ifs with h
    · exact writeRGB_length _ _ _
    · rfl

theorem painStep_length (painClass : Option LabelClass) (cols : List ℚ)
    (e : Nat × String) : (painStep painClass cols e).length = cols.length := by
  unfold painStep
  cases painClass with
  | none => rfl
  | some pc =>
    dsimp only
    split_ifs with h
    · exact writeRGB_length _ _ _
    · rfl

theorem labelPass_length (labelClasses : List LabelClass) (m : List (Nat × String))
    (cols : List ℚ) : (labelPass labelClasses m cols).length = cols.length := by
  unfold labelPass
  induction m generalizing cols with
  | nil => rfl
  | cons e t ih => rw [List.foldl_cons, ih, labelStep_length]

theorem painPass_length (painClass : Option LabelClass) (m : List (Nat × String))
    (cols : List ℚ) : (painPass painClass m cols).length = cols.length := by
  unfold painPass
  induction m generalizing cols with
  | nil => rfl
  | cons e t ih => rw [List.foldl_cons, ih, painStep_length]

theorem labelStep_read_ne (labelClasses : List LabelClass) (cols : List ℚ)
    (e : Nat × String) (v : Nat) (h : e.1 ≠ v) :
    readRGB (labelStep labelClasses cols e) v = readRGB cols v := by
  unfold labelStep
  cases labelClasses.find? (fun cls => cls.id == e.2) with
  | none => rfl
  | some cls =>
    dsimp only
    split_ifs with hvis
    · exact readRGB_writeRGB_ne _ _ _ _ h
    · rfl

theorem painStep_read_ne (painClass : Option LabelClass) (cols : List ℚ)
    (e : Nat × String) (v : Nat) (h : e.1 ≠ v) :
    readRGB (painStep painClass cols e) v = readRGB cols v := by
  unfold painStep
  cases painClass with
  | none => rfl
  | some pc =>
    dsimp only
    split_ifs with hvis
    · exact readRGB_writeRGB_ne _ _ _ _ h
    · rfl

theorem labelPass_not_mem (labelClasses : List LabelClass) (m : List (Nat × String))
    (cols : List ℚ) (v : Nat) (hv : v ∉ m.map Prod.fst) :
    readRGB (labelPass labelClasses m cols) v = readRGB cols v := by
  unfold labelPass
  revert hv
  induction m generalizing cols with
  | nil => intro hv; rfl
  | cons e t ih =>
    intro hv
    simp only [List.map_cons, List.mem_cons, not_or] at hv
    rw [List.foldl_cons, ih (labelStep labelClasses cols e) hv.2]
    exact labelStep_read_ne _ _ _ _ (fun hh => hv.1 hh.symm)

theorem painPass_not_mem (painClass : Option LabelClass) (m : List (Nat × String))
    (cols : List ℚ) (v : Nat) (hv : v ∉ m.map Prod.fst) :
    readRGB (painPass painClass m cols) v = readRGB cols v := by
  unfold painPass
  revert hv
  induction m generalizing cols with
  | nil => intro hv; rfl
  | cons e t ih =>
    intro hv
    simp only [List.map_cons, List.mem_cons, not_or] at hv
    rw [List.foldl_cons, ih (painStep painClass cols e) hv.2]
    exact painStep_read_ne _ _ _ _ (fun hh => hv.1 hh.symm)

theorem labelStep_read_self (labelClasses : List LabelClass) (cols : List ℚ)
    (e : Nat × String) (hlen : 3 * e.1 + 2 < cols.length) :
    readRGB (labelStep labelClasses cols e) e.1 =
      resolveColor labelClasses e.2 (readRGB cols e.1) := by
  unfold labelStep resolveColor
  cases labelClasses.find? (fun cls => cls.id == e.2) with
  | none => rfl
  | some cls =>
    dsimp only
    split_ifs with hvis
    · exact readRGB_writeRGB_self _ _ _ hlen
    · rfl

theorem painStep_read_self (painClass : Option LabelClass) (cols : List ℚ)
    (e : Nat × String) (hlen : 3 * e.1 + 2 < cols.length) :
    readRGB (painStep painClass cols e) e.1 =
      painColor painClass (readRGB cols e.1) := by
  unfold painStep painColor
  cases painClass with
  | none => rfl
  | some pc =>
    dsimp only
    split_ifs with hvis
    · exact readRGB_writeRGB_self _ _ _ hlen
    · rfl

theorem labelPass_read_mem (labelClasses : List LabelClass) (m : List (Nat × String))
    (cols : List ℚ) (v : Nat) (cid : String)
    (hnd : (m.map Prod.fst).Nodup) (hget : mapGet m v = some cid)
    (hlen : 3 * v + 2 < cols.length) :
    readRGB (labelPass labelClasses m cols) v =
      resolveColor labelClasses cid (readRGB cols v) := by
  unfold labelPass
  revert hnd hget hlen
  induction m generalizing cols with
  | nil =>
    intro hnd hget hlen
    exact absurd hget (by simp [mapGet])
  | cons e t ih =>
    intro hnd hget hlen
    simp only [List.map_cons, List.nodup_cons] at hnd
    rw [List.foldl_cons]
    by_cases he : e.1 = v
    · have hcid : e.2 = cid := by
        unfold mapGet at hget
        rw [List.find?_cons_of_pos _ (by simp [he])] at hget
        simpa using hget
      have hvt : v ∉ t.map Prod.fst := he ▸ hnd.1
      have hfold :
          t.foldl (labelStep labelClasses) (labelStep labelClasses cols e) =
            labelPass labelClasses t (labelStep labelClasses cols e) := rfl
      rw [hfold, labelPass_not_mem labelClasses t _ v hvt, ← hcid, ← he]
      exact labelStep_read_self labelClasses cols e (he ▸ hlen)
    · have hget2 : mapGet t v = some cid := by
        unfold mapGet at hget ⊢
        rw [List.find?_cons_of_neg _ (by simp [he])] at hget
        exact hget
      have hlen2 : 3 * v + 2 < (labelStep labelClasses cols e).length := by
        rw [labelStep_length]; exact hlen
      rw [ih (labelStep labelClasses cols e) hnd.2 hget2 hlen2,
        labelStep_read_ne labelClasses cols e v he]

theorem painPass_read_mem (painClass : Option LabelClass) (m : List (Nat × String))
    (cols : List ℚ) (v : Nat)
    (hnd : (m.map Prod.fst).Nodup) (hmem : v ∈ m.map Prod.fst)
    (hlen : 3 * v + 2 < cols.length) :
    readRGB (painPass painClass m cols) v =
      painColor painClass (readRGB cols v) := by
  unfold painPass
  revert hnd hmem hlen
  induction m generalizing cols with
  | nil =>
    intro hnd hmem hlen
    exact absurd hmem (by simp)
  | cons e t ih =>
    intro hnd hmem hlen
    simp only [List.map_cons, List.nodup_cons] at hnd
    rw [List.foldl_cons]
    by_cases he : e.1 = v
    · have hvt : v ∉ t.map Prod.fst := he ▸ hnd.1
      have hfold :
          t.foldl (painStep painClass) (painStep painClass cols e) =
            painPass painClass t (painStep painClass cols e) := rfl
      rw [hfold, painPass_not_mem painClass t _ v hvt, ← he]
      exact painStep_read_self painClass cols e (he ▸ hlen)
    · have hmem2 : v ∈ t.map Prod.fst := by
        simp only [List.map_cons, List.mem_cons] at hmem
        rcases hmem with h | h
        · exact absurd h.symm he
        · exact h
      have hlen2 : 3 * v + 2 < (painStep painClass cols e).length := by
        rw [painStep_length]; exact hlen
      rw [ih (painStep painClass cols e) hnd.2 hmem2 hlen2,
        painStep_read_ne painClass cols e v he]

theorem mem_keys_mapGet (m : List (Nat × String)) (v : Nat)
    (h : v ∈ m.map Prod.fst) : ∃ cid, mapGet m v = some cid := by
  unfold mapGet
  obtain ⟨e, hem, he⟩ := List.mem_map.1 h
  have hsome : (m.find? (fun x => x.1 == v)).isSome :=
    List.find?_isSome.2 ⟨e, hem, by simp [he]⟩
  obtain ⟨x, hx⟩ := Option.isSome_iff_exists.1 hsome
  exact ⟨x.2, by rw [hx]; rfl⟩

theorem mapGet_mapDelete_self (m : List (Nat × String)) (k : Nat) :
    mapGet (mapDelete m k) k = none := by
  unfold mapGet mapDelete
  have hnone : List.find? (fun e => e.1 == k) (m.filter (fun e => e.1 != k)) = none := by
    rw [List.find?_eq_none]
    intro x hx
    have hne := (List.mem_filter.1 hx).2
    simp only [bne_iff_ne] at hne
    simp [hne]
  rw [hnone]
  rfl

theorem blendCellR_length (cols : List ℝ) (i : Nat) (target s : ℝ) :
    (blendCellR cols i target s).length = cols.length := by
  unfold blendCellR
  rw [List.length_set]

theorem getD_blendCellR_ne (cols : List ℝ) (i j : Nat) (target s : ℝ) (h : i ≠ j) :
    (blendCellR cols i target s).getD j 0 = cols.getD j 0 := by
  unfold blendCellR
  rw [List.getD_eq_getElem?_getD, List.getElem?_set_ne h, ← List.getD_eq_getElem?_getD]

theorem getD_blendCellR_self_one (cols : List ℝ) (i : Nat) (target : ℝ)
    (h : i < cols.length) :
    (blendCellR cols i target 1).getD i 0 = target := by
  unfold blendCellR
  rw [List.getD_eq_getElem?_getD, List.getElem?_set_self h]
  show cols.getD i 0 + (target - cols.getD i 0) * 1 = target
  ring

theorem readRGBR_blend3_one (cols : List ℝ) (v : Nat) (t0 t1 t2 : ℝ)
    (h : 3 * v + 2 < cols.length) :
    readRGBR (blendCellR (blendCellR (blendCellR cols (3 * v) t0 1) (3 * v + 1) t1 1)
      (3 * v + 2) t2 1) v = (t0, t1, t2) := by
  have hr : (blendCellR (blendCellR (blendCellR cols (3 * v) t0 1) (3 * v + 1) t1 1)
      (3 * v + 2) t2 1).getD (3 * v) 0 = t0 := by
    rw [getD_blendCellR_ne _ _ _ _ _ (by omega), getD_blendCellR_ne _ _ _ _ _ (by omega),
      getD_blendCellR_self_one _ _ _ (by omega)]
  have hg : (blendCellR (blendCellR (blendCellR cols (3 * v) t0 1) (3 * v + 1) t1 1)
      (3 * v + 2) t2 1).getD (3 * v + 1) 0 = t1 := by
    rw [getD_blendCellR_ne _ _ _ _ _ (by omega),
      getD_blendCellR_self_one _ _ _ (by rw [blendCellR_length]; omega)]
  have hb : (blendCellR (blendCellR (blendCellR cols (3 * v) t0 1) (3 * v + 1) t1 1)
      (3 * v + 2) t2 1).getD (3 * v + 2) 0 = t2 := by
    rw [getD_blendCellR_self_one _ _ _
      (by rw [blendCellR_length, blendCellR_length]; omega)]
  show ((blendCellR (blendCellR (blendCellR cols (3 * v) t0 1) (3 * v + 1) t1 1)
    (3 * v + 2) t2 1).getD (3 * v) 0,
    (blendCellR (blendCellR (blendCellR cols (3 * v) t0 1) (3 * v + 1) t1 1)
      (3 * v + 2) t2 1).getD (3 * v + 1) 0,
    (blendCellR (blendCellR (blendCellR cols (3 * v) t0 1) (3 * v + 1) t1 1)
      (3 * v + 2) t2 1).getD (3 * v + 2) 0) = (t0, t1, t2)
  rw [hr, hg, hb]

theorem strength_one_of_mem (positions : List Vec3) (p : Vec3)
    (brush : BrushSettings) (v : Nat)
    (hf : brush.falloff = Falloff.constant) (hs : brush.strength = 1)
    (hmem : v ∈ getVerticesInRadius positions p brush.size) :
    calculateBrushStrengthR (edist (positions.getD v ⟨0, 0, 0⟩) p) (brush.size : ℝ)
      brush.falloff (brush.strength : ℝ) = 1 := by
  rw [getVerticesInRadius, List.mem_filter] at hmem
  have hle : edist (positions.getD v ⟨0, 0, 0⟩) p ≤ ((brush.size : ℚ) : ℝ) :=
    edist_le_of_distLe _ _ _ hmem.2
  unfold calculateBrushStrengthR
  rw [if_neg (not_lt.2 hle), hf]
  dsimp only
  rw [hs]
  exact Rat.cast_one

theorem paintAtPoint3_single_paint (st : PState3) (cls : LabelClass)
    (brush : BrushSettings) (p : Vec3) (v : Nat)
    (hf : brush.falloff = Falloff.constant) (hs : brush.strength = 1)
    (hcov : getVerticesInRadius st.positions p brush.size = [v]) :
    paintAtPoint3 st (some cls) brush p false =
      { st with
        paintedVertices := mapSet st.paintedVertices v cls.id,
        vertexColors := blendCellR (blendCellR (blendCellR st.vertexColors (3 * v)
            ((hexToRgb cls.color).r : ℝ) 1) (3 * v + 1) ((hexToRgb cls.color).g : ℝ) 1)
          (3 * v + 2) ((hexToRgb cls.color).b : ℝ) 1 } := by
  have hmem : v ∈ getVerticesInRadius st.positions p brush.size := by
    rw [hcov]; exact List.mem_cons_self v []
  have hone := strength_one_of_mem st.positions p brush v hf hs hmem
  unfold paintAtPoint3
  rw [if_neg (by simp), hcov, List.foldl_cons, List.foldl_nil]
  unfold paint3Step
  dsimp only
  rw [hone, if_pos (by norm_num : (0 : ℝ) < 1)]
  simp

theorem paintAtPoint3_single_erase (st : PState3) (cls : LabelClass)
    (brush : BrushSettings) (p : Vec3) (v : Nat)
    (hf : brush.falloff = Falloff.constant) (hs : brush.strength = 1)
    (hcov : getVerticesInRadius st.positions p brush.size = [v]) :
    paintAtPoint3 st (some cls) brush p true =
      { st with
        paintedVertices := mapDelete st.paintedVertices v,
        vertexColors := blendCellR (blendCellR (blendCellR st.vertexColors (3 * v)
            (st.originalColors.getD (3 * v) 0) 1) (3 * v + 1)
            (st.originalColors.getD (3 * v + 1) 0) 1)
          (3 * v + 2) (st.originalColors.getD (3 * v + 2) 0) 1 } := by
  have hmem : v ∈ getVerticesInRadius st.positions p brush.size := by
    rw [hcov]; exact List.mem_cons_self v []
  have hone := strength_one_of_mem st.positions p brush v hf hs hmem
  unfold paintAtPoint3
  rw [if_neg (by simp), hcov, List.foldl_cons, List.foldl_nil]
  unfold paint3Step
  dsimp only
  rw [hone, if_pos (by norm_num : (0 : ℝ) < 1)]
  simp

theorem moveGate_iff (lastPaintPoint : Option Vec3) (p : Vec3) (brushSize : ℚ) :
    moveGate lastPaintPoint p brushSize = true ↔
      (lastPaintPoint = none ∨ ∃ q, lastPaintPoint = some q ∧
        ((brushSize * (1 / 10) : ℚ) : ℝ) < edist q p) := by
  cases lastPaintPoint with
  | none => simp [moveGate]
  | some q =>
    simp only [moveGate, Bool.not_eq_true', Option.some.injEq, reduceCtorEq,
      false_or]
    constructor
    · intro h
      refine ⟨q, rfl, ?_⟩
      by_contra hle
      rw [not_lt] at hle
      have : distLe (sqDist q p) (brushSize * (1 / 10)) = true := by
        rw [distLe_iff _ _ (sqDist_nonneg q p)]
        rw [edist] at hle
        exact hle
      rw [this] at h
      exact Bool.noConfusion h
    · rintro ⟨q2, hq, hlt⟩
      obtain rfl : q = q2 := hq
      by_contra hne
      have h : distLe (sqDist q p) (brushSize * (1 / 10)) = true := by
        cases hb : distLe (sqDist q p) (brushSize * (1 / 10))
        · exact absurd hb hne
        · rfl
      rw [distLe_iff _ _ (sqDist_nonneg q p), ← edist] at h
      exact absurd hlt (not_lt.2 h)

theorem selectRaw_unsupported (inp : LoadInput)
    (h1 : strEndsWith (strToLower inp.fileName) (".stl") = false)
    (h2 : strEndsWith (strToLower inp.fileName) (".obj") = false) :
    selectRaw inp = Except.error LoadError.unsupportedFormat := by
  unfold selectRaw
  rw [if_neg (by rw [h1]; exact Bool.false_ne_true),
    if_neg (by rw [h2]; exact Bool.false_ne_true)]

/-- C3: whenever `loadMeshFromFile` succeeds, the output has the same
vertex count and order as the parsed input — vertex `i` is the parsed
vertex `i` translated by minus the bounding-box center and scaled by
`2 / maxDimension` — and the output's axis-aligned bounding box has
largest dimension exactly `2` and center exactly at the origin. -/
theorem c3_normalized_output (inp : LoadInput) (out : List Vec3)
    (h : loadMeshFromFile inp = Except.ok out) :
    ∃ raw, selectRaw inp = Except.ok raw ∧
      out.length = (toVertices raw).length ∧
      (∀ i : Nat, out[i]? = ((toVertices raw)[i]?).map
        (nf (bboxCenter (toVertices raw)) (2 / bboxMaxDim (toVertices raw)))) ∧
      bboxMaxDim out = 2 ∧
      bboxCenter out = ⟨0, 0, 0⟩ := by
  cases hsel : selectRaw inp with
  | error e =>
    rw [loadMeshFromFile_error_sel inp e hsel] at h
    exact absurd h (by simp)
  | ok raw =>
    rw [loadMeshFromFile_ok_sel inp raw hsel] at h
    split_ifs at h with h1 h2 h3 <;> simp at h
    subst h
    have hne : toVertices raw ≠ [] := by
      intro hnil
      rw [hnil] at h3
      exact h3 (by simp [bboxMaxDim, bboxSize, bboxLo, bboxHi])
    obtain ⟨hdim, hcen⟩ := normalize_bbox (toVertices raw) hne h3
    refine ⟨raw, rfl, ?_, ?_, hdim, hcen⟩
    · exact List.length_map _ _
    · intro i
      exact List.getElem?_map _ _ i

theorem c3_normalized_output_witness :
    bboxMaxDim [(⟨-1, 0, 0⟩ : Vec3), ⟨1, 0, 0⟩] = 2 ∧
    bboxCenter [(⟨-1, 0, 0⟩ : Vec3), ⟨1, 0, 0⟩] = ⟨0, 0, 0⟩ := by
  obtain ⟨raw, hsel, hlen, hget, hdim, hcen⟩ := c3_normalized_output
    ⟨"a.stl", [some 0, some 0, some 0, some 2, some 0, some 0], []⟩
    [⟨-1, 0, 0⟩, ⟨1, 0, 0⟩]
    (by
      rw [loadMeshFromFile_ok_sel _ _ (selectRaw_stl _ (by decide))]
      norm_num [toVertices, List.range_succ, fvalOr0, bboxMaxDim, bboxSize, bboxLo,
        bboxHi, bboxCenter, normalizeVertices, nf, foldMin, foldMax, min_def, max_def])
  exact ⟨hdim, hcen⟩

/-- C4 (amended): `loadMeshFromFile` fails with `UnsupportedFormat` exactly
when the lower-cased file name ends in neither supported extension; it
fails with `InvalidGeometry` when the selected position buffer is empty,
contains a NaN/infinite coordinate, or no OBJ sub-mesh is valid; and for a
selected, validated buffer of well-formed (multiple-of-3) length it fails
with `DegenerateGeometry` exactly when the largest bounding-box dimension
is zero, succeeding otherwise.  (The original claim's rejection of buffers
whose length is not a multiple of 3 does not exist in the code — see the
counterexample.) -/
theorem c4_load_error_taxonomy (inp : LoadInput) :
    (loadMeshFromFile inp = Except.error LoadError.unsupportedFormat ↔
      supportedExt inp.fileName = false) ∧
    (strEndsWith (strToLower inp.fileName) (".stl") = true →
      (inp.stlPositions.length = 0 ∨
        inp.stlPositions.all (fun v => v.isSome) = false) →
      loadMeshFromFile inp = Except.error LoadError.invalidGeometry) ∧
    (strEndsWith (strToLower inp.fileName) (".stl") = false →
      strEndsWith (strToLower inp.fileName) (".obj") = true →
      inp.objMeshes.find? isValidSub = none →
      loadMeshFromFile inp = Except.error LoadError.invalidGeometry) ∧
    (∀ raw, selectRaw inp = Except.ok raw → raw.length ≠ 0 →
      raw.all (fun v => v.isSome) = true → 3 ∣ raw.length →
      ((loadMeshFromFile inp = Except.error LoadError.degenerateGeometry ↔
          bboxMaxDim (toVertices raw) = 0) ∧
        (bboxMaxDim (toVertices raw) ≠ 0 →
          loadMeshFromFile inp = Except.ok (normalizeVertices (toVertices raw))))) := by
  refine ⟨?_, ?_, ?_, ?_⟩
  · by_cases hstl : strEndsWith (strToLower inp.fileName) (".stl") = true
    · rw [loadMeshFromFile_ok_sel inp _ (selectRaw_stl inp hstl)]
      constructor
      · intro h
        split_ifs at h <;> simp at h
      · intro h
        rw [supportedExt, hstl] at h
        simp at h
    · rw [Bool.not_eq_true] at hstl
      by_cases hobj : strEndsWith (strToLower inp.fileName) (".obj") = true
      · have hsel := selectRaw_obj inp hstl hobj
        cases hfind : inp.objMeshes.find? isValidSub with
        | none =>
          rw [hfind] at hsel
          rw [loadMeshFromFile_error_sel inp _ hsel]
          constructor
          · intro h
            simp at h
          · intro h
            rw [supportedExt, hobj] at h
            simp at h
        | some g =>
          rw [hfind] at hsel
          rw [loadMeshFromFile_ok_sel inp g hsel]
          constructor
          · intro h
            split_ifs at h <;> simp at h
          · intro h
            rw [supportedExt, hobj] at h
            simp at h
      · rw [Bool.not_eq_true] at hobj
        rw [loadMeshFromFile_error_sel inp _ (selectRaw_unsupported inp hstl hobj)]
        rw [supportedExt, hstl, hobj]
        simp
  · intro hstl hbad
    rw [loadMeshFromFile_ok_sel inp _ (selectRaw_stl inp hstl)]
    rcases hbad with hlen | hnan
    · rw [if_pos hlen]
    · by_cases hlen : inp.stlPositions.length = 0
      · rw [if_pos hlen]
      · rw [if_neg hlen, if_neg (by rw [hnan]; exact Bool.false_ne_true)]
  · intro hstl hobj hfind
    have hsel := selectRaw_obj inp hstl hobj
    rw [hfind] at hsel
    exact loadMeshFromFile_error_sel inp _ hsel
  · intro raw hsel hlen hall hdvd
    rw [loadMeshFromFile_ok_sel inp raw hsel]
    rw [if_neg hlen, if_pos hall]
    by_cases hmd : bboxMaxDim (toVertices raw) = 0
    · rw [if_pos hmd]
      exact ⟨by simp [hmd], fun hc => absurd hmd hc⟩
    · rw [if_neg hmd]
      exact ⟨by simp [hmd], fun _ => rfl⟩

theorem c4_load_error_taxonomy_witness :
    loadMeshFromFile ⟨"a.txt", [], []⟩ = Except.error LoadError.unsupportedFormat ∧
    loadMeshFromFile ⟨"b.stl", [], []⟩ = Except.error LoadError.invalidGeometry :=
  ⟨(c4_load_error_taxonomy ⟨"a.txt", [], []⟩).1.mpr (by decide),
   (c4_load_error_taxonomy ⟨"b.stl", [], []⟩).2.1 (by decide) (Or.inl rfl)⟩

/-- C4 counterexample: a 7-float STL position buffer of finite values —
length not a multiple of 3 — is not rejected with `InvalidGeometry` as the
claim states.  Only the error classification is asserted, not the loaded
geometry: `InvalidGeometry` can arise solely from the emptiness/NaN
validation and the OBJ sub-mesh selection, which are embedded verbatim and
never consult the bounding box, so this observable is faithful even where
the bounding-box values themselves are not modelled (three.js would read
the incomplete trailing vertex there).  The proof accordingly never
evaluates the bounding box: after the validation passes, both remaining
outcomes (`DegenerateGeometry` or success) differ from `InvalidGeometry`. -/
theorem c4_load_error_taxonomy_counterexample :
    ¬ (3 ∣ (7 : Nat)) ∧
    loadMeshFromFile
        ⟨"a.stl", [some 0, some 0, some 0, some 2, some 0, some 0, some 5], []⟩ ≠
      Except.error LoadError.invalidGeometry := by
  refine ⟨by decide, ?_⟩
  rw [loadMeshFromFile_ok_sel _ _ (selectRaw_stl _ (by decide))]
  rw [if_neg (by decide :
      ¬ ([some (0 : ℚ), some 0, some 0, some 2, some 0, some 0,
        some 5].length = 0)),
    if_pos (by decide :
      ([some (0 : ℚ), some 0, some 0, some 2, some 0, some 0,
        some 5].all (fun v => v.isSome)) = true)]
  intro h
  split_ifs at h <;> simp at h

/-- C6: in the mode-partitioned variant, a paint or erase application
mutates only the active mode's assignment map: in mesh-labeling mode the
pain-area map is unchanged, in pain-assessment mode the mesh-label map is
unchanged. -/
theorem c6_mode_partition (st : PState2) (activeClass : Option LabelClass)
    (brush : BrushSettings) (appMode : AppMode) (intersectionPoint : Vec3)
    (shouldErase : Bool) :
    (appMode = AppMode.meshLabeling →
      (paintAtPoint2 st activeClass brush appMode intersectionPoint
        shouldErase).painAreaVertices = st.painAreaVertices) ∧
    (appMode = AppMode.painAssessment →
      (paintAtPoint2 st activeClass brush appMode intersectionPoint
        shouldErase).meshLabelVertices = st.meshLabelVertices) := by
  constructor
  · rintro rfl
    unfold paintAtPoint2
    split_ifs
    · rfl
    · exact paint2_foldl_meshLabeling_snd _ _ _ _ _ _ _
  · rintro rfl
    unfold paintAtPoint2
    split_ifs
    · rfl
    · exact paint2_foldl_painAssessment_fst _ _ _ _ _ _ _

theorem c6_mode_partition_witness :
    (paintAtPoint2
        ⟨[⟨0, 0, 0⟩], [7/10, 7/10, 7/10], [7/10, 7/10, 7/10], [], [(0, "pain")]⟩
        (some ⟨"1", "Region 1", "#EF4444", true⟩) ⟨1, 1, Falloff.constant⟩
        AppMode.meshLabeling ⟨0, 0, 0⟩ false).painAreaVertices = [(0, "pain")] :=
  (c6_mode_partition
    ⟨[⟨0, 0, 0⟩], [7/10, 7/10, 7/10], [7/10, 7/10, 7/10], [], [(0, "pain")]⟩
    (some ⟨"1", "Region 1", "#EF4444", true⟩) ⟨1, 1, Falloff.constant⟩
    AppMode.meshLabeling ⟨0, 0, 0⟩ false).1 rfl

/-- C10: in the mode-partitioned variant, `paintAtPoint` never changes the
current vertex color buffer (it republishes the very buffer it started
with), nor the original colors or positions: brush strength and falloff
only influence assignment-map membership, and coloring happens solely in
the separate full-recompute effect. -/
theorem c10_paint2_preserves_colors (st : PState2) (activeClass : Option LabelClass)
    (brush : BrushSettings) (appMode : AppMode) (intersectionPoint : Vec3)
    (shouldErase : Bool) :
    (paintAtPoint2 st activeClass brush appMode intersectionPoint
        shouldErase).vertexColors = st.vertexColors ∧
    (paintAtPoint2 st activeClass brush appMode intersectionPoint
        shouldErase).originalColors = st.originalColors ∧
    (paintAtPoint2 st activeClass brush appMode intersectionPoint
        shouldErase).positions = st.positions := by
  unfold paintAtPoint2
  split_ifs <;> exact ⟨rfl, rfl, rfl⟩

/-- C5: in the blend-on-color-buffer variant, painting a vertex with a
constant-falloff, strength-1 brush that covers only that vertex and then
erasing at the same point with the same brush removes the vertex from the
painted-vertices map and restores its current RGB exactly to the original
baseline color. -/
theorem c5_paint_erase_roundtrip (st : PState3) (cls : LabelClass)
    (brush : BrushSettings) (p : Vec3) (v : Nat)
    (hf : brush.falloff = Falloff.constant) (hs : brush.strength = 1)
    (hcov : getVerticesInRadius st.positions p brush.size = [v])
    (hv : 3 * v + 2 < st.vertexColors.length) :
    mapGet (paintAtPoint3 (paintAtPoint3 st (some cls) brush p false) (some cls)
      brush p true).paintedVertices v = none ∧
    readRGBR (paintAtPoint3 (paintAtPoint3 st (some cls) brush p false) (some cls)
      brush p true).vertexColors v = readRGBR st.originalColors v := by
  have h1 := paintAtPoint3_single_paint st cls brush p v hf hs hcov
  have hpos : (paintAtPoint3 st (some cls) brush p false).positions = st.positions := by
    rw [h1]
  have horig : (paintAtPoint3 st (some cls) brush p false).originalColors =
      st.originalColors := by
    rw [h1]
  have hcov1 : getVerticesInRadius
      (paintAtPoint3 st (some cls) brush p false).positions p brush.size = [v] := by
    rw [hpos, hcov]
  have h2 := paintAtPoint3_single_erase (paintAtPoint3 st (some cls) brush p false)
    cls brush p v hf hs hcov1
  have hlen1 : 3 * v + 2 < (paintAtPoint3 st (some cls) brush p false).vertexColors.length := by
    rw [h1]
    dsimp only
    rw [blendCellR_length, blendCellR_length, blendCellR_length]
    exact hv
  constructor
  · rw [h2]
    exact mapGet_mapDelete_self _ v
  · rw [h2]
    dsimp only
    rw [horig, readRGBR_blend3_one _ v _ _ _ hlen1]
    rfl

theorem c5_paint_erase_roundtrip_witness :
    mapGet (paintAtPoint3 (paintAtPoint3
        ⟨[⟨0, 0, 0⟩], [7/10, 7/10, 7/10], [7/10, 7/10, 7/10], []⟩
        (some ⟨"1", "Region 1", "#EF4444", true⟩) ⟨1, 1, Falloff.constant⟩
        ⟨0, 0, 0⟩ false)
      (some ⟨"1", "Region 1", "#EF4444", true⟩) ⟨1, 1, Falloff.constant⟩
      ⟨0, 0, 0⟩ true).paintedVertices 0 = none ∧
    readRGBR (paintAtPoint3 (paintAtPoint3
        ⟨[⟨0, 0, 0⟩], [7/10, 7/10, 7/10], [7/10, 7/10, 7/10], []⟩
        (some ⟨"1", "Region 1", "#EF4444", true⟩) ⟨1, 1, Falloff.constant⟩
        ⟨0, 0, 0⟩ false)
      (some ⟨"1", "Region 1", "#EF4444", true⟩) ⟨1, 1, Falloff.constant⟩
      ⟨0, 0, 0⟩ true).vertexColors 0 =
      readRGBR [7/10, 7/10, 7/10] 0 :=
  c5_paint_erase_roundtrip
    ⟨[⟨0, 0, 0⟩], [7/10, 7/10, 7/10], [7/10, 7/10, 7/10], []⟩
    ⟨"1", "Region 1", "#EF4444", true⟩ ⟨1, 1, Falloff.constant⟩ ⟨0, 0, 0⟩ 0
    rfl rfl
    (by
      norm_num [getVerticesInRadius, distLe, sqDist, List.range_succ,
        List.filter_cons])
    (by decide)

/-- C7: the full color recompute of the mode-partitioned variant starts
from a fresh copy of the baseline, applies the mesh-label map first and the
pain-area map second (so the pain color wins on overlap), overwrites a
vertex's RGB with the class color (hex converted to `[0,1]` floats) only
when the governing class resolves and is visible, and otherwise leaves the
previous layer's or baseline color in place without error. -/
theorem c7_recompute_layering (originalColors : List ℚ)
    (labelClasses : List LabelClass) (painClass : Option LabelClass)
    (mL mP : List (Nat × String)) (v : Nat)
    (hndL : (mL.map Prod.fst).Nodup) (hndP : (mP.map Prod.fst).Nodup)
    (hv : 3 * v + 2 < originalColors.length) :
    (painApplies painClass mP v → ∀ pc, painClass = some pc →
      readRGB (recompute2 originalColors labelClasses painClass mL mP) v =
        hexToRgb pc.color) ∧
    (¬ painApplies painClass mP v →
      ∀ cid cls, mapGet mL v = some cid →
        labelClasses.find? (fun c => c.id == cid) = some cls → cls.visible = true →
        readRGB (recompute2 originalColors labelClasses painClass mL mP) v =
          hexToRgb cls.color) ∧
    (¬ painApplies painClass mP v → ¬ labelApplies labelClasses mL v →
      readRGB (recompute2 originalColors labelClasses painClass mL mP) v =
        readRGB originalColors v) := by
  have hlenL : 3 * v + 2 < (labelPass labelClasses mL originalColors).length := by
    rw [labelPass_length]; exact hv
  have hB : ¬ painApplies painClass mP v →
      readRGB (recompute2 originalColors labelClasses painClass mL mP) v =
        readRGB (labelPass labelClasses mL originalColors) v := by
    intro hnp
    unfold recompute2
    by_cases hmem : v ∈ mP.map Prod.fst
    · rw [painPass_read_mem painClass mP _ v hndP hmem hlenL]
      unfold painColor
      cases hpc : painClass with
      | none => rfl
      | some pc =>
        dsimp only
        split_ifs with hvis
        · exact absurd ⟨hmem, pc, hpc, hvis⟩ hnp
        · rfl
    · exact painPass_not_mem painClass mP _ v hmem
  refine ⟨?_, ?_, ?_⟩
  · rintro ⟨hmem, pc0, hpc0, hvis0⟩ pc hpc
    obtain rfl : pc0 = pc := by rw [hpc0] at hpc; exact Option.some.inj hpc
    unfold recompute2
    rw [painPass_read_mem painClass mP _ v hndP hmem hlenL]
    unfold painColor
    rw [hpc0]
    dsimp only
    rw [if_pos hvis0]
  · intro hnp cid cls hget hf hvis
    rw [hB hnp, labelPass_read_mem labelClasses mL originalColors v cid hndL hget hv]
    unfold resolveColor
    rw [hf]
    dsimp only
    rw [if_pos hvis]
  · intro hnp hnl
    rw [hB hnp]
    by_cases hmem : v ∈ mL.map Prod.fst
    · obtain ⟨cid, hget⟩ := mem_keys_mapGet mL v hmem
      rw [labelPass_read_mem labelClasses mL originalColors v cid hndL hget hv]
      unfold resolveColor
      cases hf : labelClasses.find? (fun c => c.id == cid) with
      | none => rfl
      | some cls =>
        dsimp only
        split_ifs with hvis
        · exact absurd ⟨cid, cls, hget, hf, hvis⟩ hnl
        · rfl
    · exact labelPass_not_mem labelClasses mL originalColors v hmem

theorem c7_recompute_layering_witness :
    readRGB (recompute2 [7/10, 7/10, 7/10, 7/10, 7/10, 7/10] []
      (some ⟨"pain", "Problem Area", "#EF4444", true⟩) [] [(1, "pain")]) 1 =
      hexToRgb ("#EF4444") :=
  (c7_recompute_layering [7/10, 7/10, 7/10, 7/10, 7/10, 7/10] []
      (some ⟨"pain", "Problem Area", "#EF4444", true⟩) [] [(1, "pain")] 1
      (by decide) (by decide) (by decide)).1
    ⟨by decide, ⟨"pain", "Problem Area", "#EF4444", true⟩, rfl, rfl⟩
    ⟨"pain", "Problem Area", "#EF4444", true⟩ rfl

/-- C8: while the primary button is held with a paint/erase tool active, a
sampled intersection point `p` triggers exactly one application iff
`lastPaintPoint` is `none` or farther than `brushSize * 0.1` from `p`,
after which `lastPaintPoint = p`; a sample within the threshold triggers
nothing and leaves the state unchanged; releasing the primary button clears
`lastPaintPoint`. -/
theorem c8_stroke_sampling (isPainting isErasing : Bool) (brushSize : ℚ)
    (st : StrokeState) (p : Vec3)
    (hp : isPainting = true) (hm : st.isMouseDown = true) :
    ((frameTick3 isPainting isErasing brushSize st (some p)).2.length = 1 ↔
      (st.lastPaintPoint = none ∨ ∃ q, st.lastPaintPoint = some q ∧
        ((brushSize * (1 / 10) : ℚ) : ℝ) < edist q p)) ∧
    ((frameTick3 isPainting isErasing brushSize st (some p)).2.length = 1 →
      (frameTick3 isPainting isErasing brushSize st (some p)).1.lastPaintPoint =
        some p) ∧
    ((∃ q, st.lastPaintPoint = some q ∧
        edist q p ≤ ((brushSize * (1 / 10) : ℚ) : ℝ)) →
      (frameTick3 isPainting isErasing brushSize st (some p)).2 = [] ∧
        (frameTick3 isPainting isErasing brushSize st (some p)).1 = st) ∧
    (handleMouseUp 0 st).lastPaintPoint = none := by
  have hcond : (!isPainting || (!st.isMouseDown && !st.isRightMouseDown)) = false := by
    rw [hp, hm]
    rfl
  unfold frameTick3
  rw [hcond]
  simp only [Bool.false_eq_true, if_false]
  by_cases hg : moveGate st.lastPaintPoint p brushSize = true
  · rw [if_pos hg]
    refine ⟨?_, fun _ => rfl, ?_, ?_⟩
    · simp only [List.length_singleton, true_iff]
      exact (moveGate_iff _ _ _).1 hg
    · rintro ⟨q, hq, hle⟩
      rcases (moveGate_iff _ _ _).1 hg with hnone | ⟨q2, hq2, hlt⟩
      · rw [hq] at hnone
        exact absurd hnone (by simp)
      · rw [hq] at hq2
        obtain rfl : q = q2 := Option.some.inj hq2
        exact absurd hlt (not_lt.2 hle)
    · rfl
  · rw [if_neg hg]
    refine ⟨?_, ?_, fun _ => ⟨rfl, rfl⟩, ?_⟩
    · simp only [List.length_nil]
      constructor
      · intro h
        exact absurd h (by norm_num)
      · intro h
        exact absurd ((moveGate_iff _ _ _).2 h) hg
    · intro h
      exact absurd h (by norm_num)
    · rfl

theorem c8_stroke_sampling_witness :
    (frameTick3 true false 1 ⟨true, false, none⟩ (some ⟨0, 0, 0⟩)).2.length = 1 ∧
    (handleMouseUp 0 ⟨true, false, none⟩).lastPaintPoint = none :=
  ⟨(c8_stroke_sampling true false 1 ⟨true, false, none⟩ ⟨0, 0, 0⟩ rfl rfl).1.mpr
    (Or.inl rfl),
   (c8_stroke_sampling true false 1 ⟨true, false, none⟩ ⟨0, 0, 0⟩ rfl rfl).2.2.2⟩

end MeshPaint
